import Mathlib

/-!
Shallow embedding of the analytics core of the repository
(`influxdb_wrapper.py`, `deribit_loader.py`).

Dates are modelled as integer day ordinals (`ℤ`); a calendar is an ascending
list of such days.  Floating-point volatility values are modelled as exact
rationals (`ℚ`); fallible code paths (uncaught `IndexError`,
`ZeroDivisionError`, `KeyError`, pandas pivot errors) are modelled with
`Option`, `none` standing for the Python-level fault.
-/

/-! ## Expiry-calendar bracket resolver
(`InfluxDBWrapper._get_historical_nearby_expiries_for_tenor`, per-day walk,
lines 213-219):

    expiry1 = day_expiries[0]
    expiry2 = day_expiries[1]
    idx = 1
    while expiry2 < current_tenor:
        expiry1 = day_expiries[idx]
        expiry2 = day_expiries[idx+1]
        idx += 1

The walk visits adjacent pairs `(d[i-1], d[i])` of the fixed list; an index
past the end of the list raises an uncaught `IndexError`, modelled as `none`.
-/

def bracketWalk : List ℤ → ℤ → Option (ℤ × ℤ)
  | e1 :: e2 :: rest, target =>
      if e2 < target then bracketWalk (e2 :: rest) target else some (e1, e2)
  | _, _ => none

/-- C1: the source walk runs past the end of the calendar (uncaught
`IndexError`, i.e. `none`) whenever the day's calendar has fewer than two
entries or every entry is strictly below the tenor's target date; no typed
`CalendarExhausted` error exists anywhere in the source. -/
theorem bracketWalk_exhausted (l : List ℤ) (target : ℤ)
    (h : l.length < 2 ∨ ∀ x ∈ l, x < target) :
    bracketWalk l target = none := by
  induction l with
  | nil => rfl
  | cons e1 l ih =>
    cases l with
    | nil => rfl
    | cons e2 rest =>
      rcases h with h | h
      · simp at h; omega
      · have he2 : e2 < target := h e2 (by simp)
        have : bracketWalk (e1 :: e2 :: rest) target = bracketWalk (e2 :: rest) target := by
          simp [bracketWalk, he2]
        rw [this]
        exact ih (Or.inr (fun x hx => h x (List.mem_cons_of_mem _ hx)))

/-- Concrete instances of `bracketWalk_exhausted`: a one-entry calendar, and a
two-entry calendar whose entries both precede the target. -/
theorem bracketWalk_exhausted_witness :
    bracketWalk [(10 : ℤ)] 20 = none ∧ bracketWalk [(1 : ℤ), 5] 20 = none :=
  ⟨bracketWalk_exhausted [10] 20 (Or.inl (by decide)),
   bracketWalk_exhausted [1, 5] 20 (Or.inr (by decide))⟩

/-- C4: on a strictly ascending calendar with at least two entries, one of
which covers the target, the walk succeeds and emits an adjacent pair of
calendar entries, in ascending order. -/
theorem bracketWalk_adjacent (l : List ℤ) (target : ℤ)
    (hsort : l.Chain' (· < ·)) (hlen : 2 ≤ l.length)
    (hcov : ∃ x ∈ l, target ≤ x) :
    ∃ e1 e2, bracketWalk l target = some (e1, e2) ∧ e1 < e2 ∧
      ∃ pre post, l = pre ++ e1 :: e2 :: post := by
  induction l with
  | nil => simp at hlen
  | cons a l ih =>
    cases l with
    | nil => simp at hlen
    | cons b rest =>
      have hab : a < b := (List.chain'_cons.mp hsort).1
      by_cases hb : b < target
      · obtain ⟨x, hx, htx⟩ := hcov
        have hxrest : x ∈ rest := by
          rcases List.mem_cons.mp hx with rfl | hx'
          · omega
          · rcases List.mem_cons.mp hx' with rfl | hx''
            · omega
            · exact hx''
        have hrest_ne : rest ≠ [] := by
          intro hnil; rw [hnil] at hxrest; simp at hxrest
        have hstep : bracketWalk (a :: b :: rest) target = bracketWalk (b :: rest) target := by
          simp [bracketWalk, hb]
        obtain ⟨e1, e2, heq, hlt, pre, post, hdecomp⟩ :=
          ih (List.chain'_cons.mp hsort).2
            (by cases rest with
                | nil => exact absurd rfl hrest_ne
                | cons c rest' => simp)
            ⟨x, List.mem_cons_of_mem _ hxrest, htx⟩
        exact ⟨e1, e2, hstep ▸ heq, hlt, a :: pre, post, by rw [hdecomp]; rfl⟩
      · refine ⟨a, b, ?_, hab, [], rest, rfl⟩
        simp [bracketWalk, hb]

/-- Concrete instance of `bracketWalk_adjacent`: calendar 1,5,12,30, target 7
brackets as (5, 12). -/
theorem bracketWalk_adjacent_witness :
    ∃ e1 e2, bracketWalk [(1 : ℤ), 5, 12, 30] 7 = some (e1, e2) ∧ e1 < e2 ∧
      ∃ pre post, [(1 : ℤ), 5, 12, 30] = pre ++ e1 :: e2 :: post :=
  bracketWalk_adjacent [1, 5, 12, 30] 7 (by norm_num [List.chain'_cons]) (by decide)
    ⟨30, by decide, by decide⟩

/-- C7: when the target precedes the first entry of an ascending calendar with
at least two entries, the walk returns the first two entries, with no error. -/
theorem bracketWalk_before_first (a b : ℤ) (rest : List ℤ) (target : ℤ)
    (hsort : (a :: b :: rest).Chain' (· < ·)) (ht : target < a) :
    bracketWalk (a :: b :: rest) target = some (a, b) := by
  have hab : a < b := (List.chain'_cons.mp hsort).1
  have : ¬ b < target := by omega
  simp [bracketWalk, this]

/-- Concrete instance of `bracketWalk_before_first`: target 3 precedes the
calendar 10,20,40, and the first two entries come back. -/
theorem bracketWalk_before_first_witness :
    bracketWalk [(10 : ℤ), 20, 40] 3 = some (10, 20) :=
  bracketWalk_before_first 10 20 [40] 3 (by norm_num [List.chain'_cons]) (by decide)

/-! ## Tenor interpolation engine
(`InfluxDBWrapper.get_historical_vol_for_delta_and_tenor`, lines 286-293):

    diff_to_exp1 = abs((expiry1 - rolling_expiry).days)
    diff_to_exp2 = abs((expiry2 - rolling_expiry).days)
    diff_exp     = diff_to_exp1 + diff_to_exp2
    interp_vol1 = (1 - diff_to_exp1 / diff_exp) * vols[expiry1]
    interp_vol2 = (1 - diff_to_exp2 / diff_exp) * vols[expiry2]
    value = interp_vol1 + interp_vol2

The division is unguarded: when `diff_exp = 0` the Python row computation
faults (integer `ZeroDivisionError`, or a NaN under numpy scalars), modelled
as `none`; there is no guard and no typed `DegenerateBracket` error in the
source.
-/

def diffToExp (e t : ℤ) : ℕ := (e - t).natAbs

def diffExp (e1 e2 t : ℤ) : ℕ := diffToExp e1 t + diffToExp e2 t

def interpWeight1 (e1 e2 t : ℤ) : ℚ :=
  1 - (diffToExp e1 t : ℚ) / (diffExp e1 e2 t : ℚ)

def interpWeight2 (e1 e2 t : ℤ) : ℚ :=
  1 - (diffToExp e2 t : ℚ) / (diffExp e1 e2 t : ℚ)

def interpVolRow (e1 e2 t : ℤ) (v1 v2 : ℚ) : Option ℚ :=
  if diffExp e1 e2 t = 0 then none
  else some (interpWeight1 e1 e2 t * v1 + interpWeight2 e1 e2 t * v2)

lemma diffToExp_cast_of_le (e t : ℤ) (h : e ≤ t) :
    (diffToExp e t : ℚ) = (t : ℚ) - (e : ℚ) := by
  have hz : (diffToExp e t : ℤ) = t - e := by unfold diffToExp; omega
  exact_mod_cast hz

lemma diffToExp_cast_of_ge (e t : ℤ) (h : t ≤ e) :
    (diffToExp e t : ℚ) = (e : ℚ) - (t : ℚ) := by
  have hz : (diffToExp e t : ℤ) = e - t := by unfold diffToExp; omega
  exact_mod_cast hz

lemma interpWeights_sum_of_total_ne_zero (e1 e2 t : ℤ) (h : diffExp e1 e2 t ≠ 0) :
    interpWeight1 e1 e2 t + interpWeight2 e1 e2 t = 1 := by
  have hT : ((diffExp e1 e2 t : ℚ)) ≠ 0 := Nat.cast_ne_zero.mpr h
  have hsum : (diffToExp e1 t : ℚ) + (diffToExp e2 t : ℚ) = (diffExp e1 e2 t : ℚ) := by
    unfold diffExp; push_cast; ring
  unfold interpWeight1 interpWeight2
  field_simp
  linarith [hsum]

/-- C2: the source row computation at a degenerate bracket
(`expiry1 = expiry2 = target`, so `diff_exp = 0`) reaches the unguarded
division by zero and faults (`none`); it never produces the guarded, explicit
error the specification requires. -/
theorem interpVolRow_degenerate (t : ℤ) (v1 v2 : ℚ) :
    interpVolRow t t t v1 v2 = none := by
  simp [interpVolRow, diffExp, diffToExp]

/-- C5: when the target lies strictly between the two bracketing expiries, the
two interpolation weights sum to 1 and the emitted value is the standard
linear interpolation in calendar days; and when the target coincides with
`expiry1` (with distinct expiries) the value is exactly `value(expiry1)`. -/
theorem interpVolRow_linear (e1 e2 t : ℤ) (v1 v2 : ℚ) :
    (e1 < t → t < e2 →
      interpWeight1 e1 e2 t + interpWeight2 e1 e2 t = 1 ∧
      interpVolRow e1 e2 t v1 v2 =
        some (v1 + (((t : ℚ) - (e1 : ℚ)) / ((e2 : ℚ) - (e1 : ℚ))) * (v2 - v1))) ∧
    (t = e1 → e1 < e2 → interpVolRow e1 e2 t v1 v2 = some v1) := by
  constructor
  · intro h1 h2
    have hd1 : (diffToExp e1 t : ℚ) = (t : ℚ) - (e1 : ℚ) :=
      diffToExp_cast_of_le e1 t (le_of_lt h1)
    have hd2 : (diffToExp e2 t : ℚ) = (e2 : ℚ) - (t : ℚ) :=
      diffToExp_cast_of_ge e2 t (le_of_lt h2)
    have hne : diffExp e1 e2 t ≠ 0 := by
      unfold diffExp diffToExp; omega
    have hT : ((diffExp e1 e2 t : ℚ)) = (e2 : ℚ) - (e1 : ℚ) := by
      have : ((diffExp e1 e2 t : ℕ) : ℚ) = (diffToExp e1 t : ℚ) + (diffToExp e2 t : ℚ) := by
        unfold diffExp; push_cast; ring
      rw [this, hd1, hd2]; ring
    have he12 : (e2 : ℚ) - (e1 : ℚ) ≠ 0 := by
      have : (e1 : ℚ) < (e2 : ℚ) := by exact_mod_cast lt_trans h1 h2
      linarith
    refine ⟨interpWeights_sum_of_total_ne_zero e1 e2 t hne, ?_⟩
    unfold interpVolRow
    rw [if_neg hne]
    congr 1
    unfold interpWeight1 interpWeight2
    rw [hT, hd1, hd2]
    field_simp
    ring
  · intro ht h12
    subst ht
    have hd1 : (diffToExp t t : ℚ) = 0 := by
      unfold diffToExp; simp
    have hd2 : (diffToExp e2 t : ℚ) = (e2 : ℚ) - (t : ℚ) :=
      diffToExp_cast_of_ge e2 t (le_of_lt h12)
    have hne : diffExp t e2 t ≠ 0 := by
      unfold diffExp diffToExp; omega
    have hT : ((diffExp t e2 t : ℚ)) = (e2 : ℚ) - (t : ℚ) := by
      have hs : ((diffExp t e2 t : ℕ) : ℚ) = (diffToExp t t : ℚ) + (diffToExp e2 t : ℚ) := by
        unfold diffExp; push_cast; ring
      rw [hs, hd1, hd2]; ring
    have he12 : (e2 : ℚ) - (t : ℚ) ≠ 0 := by
      have hlt : (t : ℚ) < (e2 : ℚ) := by exact_mod_cast h12
      linarith
    unfold interpVolRow
    rw [if_neg hne]
    congr 1
    unfold interpWeight1 interpWeight2
    rw [hT, hd1, hd2]
    field_simp

/-- Concrete instance of `interpVolRow_linear`: bracket (0, 10), target 3,
values 1 and 2, giving 1 + 3/10; and target at `expiry1` giving the left
value back. -/
theorem interpVolRow_linear_witness :
    (interpWeight1 0 10 3 + interpWeight2 0 10 3 = 1 ∧
      interpVolRow 0 10 3 1 2 =
        some (1 + (((3 : ℚ) - ((0 : ℤ) : ℚ)) / (((10 : ℤ) : ℚ) - ((0 : ℤ) : ℚ))) * (2 - 1))) ∧
    interpVolRow 0 10 0 5 7 = some 5 :=
  ⟨(interpVolRow_linear 0 10 3 1 2).1 (by decide) (by decide),
   (interpVolRow_linear 0 10 0 5 7).2 rfl (by decide)⟩

/-- C6 counterexample: in the extrapolation configuration (target 0 strictly
before the bracket (2, 5)), the two weights of the source formula sum exactly
to 1, contradicting the claim that they do not. -/
theorem interpWeights_extrapolation_cex :
    ((0 : ℤ) < 2 ∧ (2 : ℤ) < 5) ∧
      interpWeight1 2 5 0 + interpWeight2 2 5 0 = 1 := by
  refine ⟨⟨by decide, by decide⟩, ?_⟩
  norm_num [interpWeight1, interpWeight2, diffExp, diffToExp]

/-- C6 (amended): in the extrapolation edge case (target strictly before
`expiry1 < expiry2`), the row computation still produces a numeric result, and
its two weights sum exactly to 1 (the value is a convex combination of the two
expiry values, not a true extrapolation). -/
theorem interpVolRow_extrapolation (e1 e2 t : ℤ) (v1 v2 : ℚ)
    (h1 : t < e1) (h2 : e1 < e2) :
    (interpVolRow e1 e2 t v1 v2).isSome = true ∧
      interpWeight1 e1 e2 t + interpWeight2 e1 e2 t = 1 := by
  have hne : diffExp e1 e2 t ≠ 0 := by
    unfold diffExp diffToExp; omega
  constructor
  · unfold interpVolRow
    rw [if_neg hne]
    rfl
  · exact interpWeights_sum_of_total_ne_zero e1 e2 t hne

/-- Concrete instance of `interpVolRow_extrapolation`: target 1 before the
bracket (3, 7). -/
theorem interpVolRow_extrapolation_witness :
    (interpVolRow 3 7 1 4 6).isSome = true ∧
      interpWeight1 3 7 1 + interpWeight2 3 7 1 = 1 :=
  interpVolRow_extrapolation 3 7 1 4 6 (by decide) (by decide)

/-! ## Surface reconstructor
(`InfluxDBWrapper.get_vol_surface_for_obs_time`, lines 116-123):

    data = DataFrame(..., columns=['expiry', 'delta', 'vol'])
    deltas = ['5P', ..., '5C']            -- the fixed 19-bucket enumeration
    vol_surface = data.pivot(index='expiry', columns='delta', values='vol')[deltas]

`pivot` raises on a duplicated (expiry, delta) pair; the `[deltas]` column
selection raises a `KeyError` when a bucket is absent, and otherwise returns
the columns exactly in the order of the `deltas` list.  Both failures are
modelled as `none`.  (pandas sorts the pivot's column labels; that order is
immaterial here because the selection step reorders them.)
-/

structure Obs where
  expiry : String
  delta : String
  vol : ℚ
deriving DecidableEq

def deltas : List String :=
  ["5P", "10P", "15P", "20P", "25P", "30P", "35P", "40P", "45P", "ATM",
   "45C", "40C", "35C", "30C", "25C", "20C", "15C", "10C", "5C"]

structure PivotTable where
  cols : List String
  rows : List String
  cellValue : String → String → Option ℚ

def pairsOf (data : List Obs) : List (String × String) :=
  data.map (fun o => (o.expiry, o.delta))

def pivotByDelta (data : List Obs) : Option PivotTable :=
  if (pairsOf data).Nodup then
    some { cols := (data.map Obs.delta).dedup,
           rows := (data.map Obs.expiry).dedup,
           cellValue := fun e d =>
             (data.find? (fun o => o.expiry == e && o.delta == d)).map Obs.vol }
  else none

def selectCols (t : PivotTable) (cs : List String) : Option PivotTable :=
  if cs.all (fun c => t.cols.contains c) then
    some { cols := cs, rows := t.rows, cellValue := t.cellValue }
  else none

def get_vol_surface (data : List Obs) : Option PivotTable :=
  (pivotByDelta data).bind (fun t => selectCols t deltas)

/-- C3: on valid input (no duplicated (expiry, delta) observation, every one
of the 19 delta buckets present), the vol surface is produced and its column
sequence is exactly the fixed 19-bucket enumeration, in order. -/
theorem get_vol_surface_cols (data : List Obs)
    (hnodup : (pairsOf data).Nodup)
    (hcover : ∀ d ∈ deltas, ∃ o ∈ data, o.delta = d) :
    (get_vol_surface data).map PivotTable.cols = some deltas := by
  have hsel : (deltas.all (fun c => ((data.map Obs.delta).dedup).contains c)) = true := by
    rw [List.all_eq_true]
    intro c hc
    obtain ⟨o, ho, hod⟩ := hcover c hc
    rw [List.contains_iff_exists_mem_beq]
    exact ⟨c, by rw [List.mem_dedup]; exact List.mem_map.mpr ⟨o, ho, hod⟩, by simp⟩
  unfold get_vol_surface pivotByDelta selectCols
  rw [if_pos hnodup, Option.some_bind']
  rw [if_pos hsel]
  rfl

def sampleSurfaceObs : List Obs := deltas.map (fun d => ⟨"2024-01-26", d, 1⟩)

/-- Concrete instance of `get_vol_surface_cols`: one expiry carrying all 19
buckets. -/
theorem get_vol_surface_cols_witness :
    (get_vol_surface sampleSurfaceObs).map PivotTable.cols = some deltas :=
  get_vol_surface_cols sampleSurfaceObs (by decide) (by decide)

/-! ## Derived metric calculator: butterfly
(`InfluxDBWrapper.get_historical_butterfly_by_delta_and_tenor`,
lines 402-414): within the rows matching a tenor and a field, the butterfly
series is

    res['value'] = history[delta == d+"C"]['value'] + history[delta == d+"P"]['value']
                   - 2 * history[delta == 'ATM']['value']

with the three sub-series aligned on their timestamp index; a timestamp
missing from any one of the three yields no numeric value (pandas NaN),
modelled as `none`.
-/

structure VolRow where
  ts : ℤ
  value : ℚ
  field : String
  delta : String
  tenor : String
deriving DecidableEq

def seriesValue (history : List VolRow) (t f dlt : String) (ts : ℤ) : Option ℚ :=
  (history.find? (fun r => r.tenor == t && r.field == f && r.delta == dlt && r.ts == ts)).map
    VolRow.value

def butterflyAt (history : List VolRow) (d f t : String) (ts : ℤ) : Option ℚ :=
  match seriesValue history t f (d ++ "C") ts, seriesValue history t f (d ++ "P") ts,
        seriesValue history t f "ATM" ts with
  | some c, some p, some a => some (c + p - 2 * a)
  | _, _, _ => none

/-- C8: wherever the call, put and ATM tenor series all carry the timestamp,
the butterfly equals call + put - 2 * ATM there; and when the three values
coincide the butterfly is 0. -/
theorem butterflyAt_formula (history : List VolRow) (d f t : String) (ts : ℤ)
    (c p a : ℚ)
    (hc : seriesValue history t f (d ++ "C") ts = some c)
    (hp : seriesValue history t f (d ++ "P") ts = some p)
    (ha : seriesValue history t f "ATM" ts = some a) :
    butterflyAt history d f t ts = some (c + p - 2 * a) ∧
      (c = a → p = a → butterflyAt history d f t ts = some 0) := by
  have hval : butterflyAt history d f t ts = some (c + p - 2 * a) := by
    unfold butterflyAt
    rw [hc, hp, ha]
  refine ⟨hval, ?_⟩
  rintro rfl rfl
  rw [hval]
  congr 1
  ring

def sampleHistory : List VolRow :=
  [⟨0, 3, "mid_iv", "15C", "7D"⟩, ⟨0, 2, "mid_iv", "15P", "7D"⟩, ⟨0, 1, "mid_iv", "ATM", "7D"⟩]

/-- Concrete instance of `butterflyAt_formula`: call 3, put 2, ATM 1 at one
timestamp gives butterfly 3 + 2 - 2. -/
theorem butterflyAt_formula_witness :
    butterflyAt sampleHistory "15" "mid_iv" "7D" 0 = some (3 + 2 - 2 * 1) :=
  (butterflyAt_formula sampleHistory "15" "mid_iv" "7D" 0 3 2 1
    (by decide) (by decide) (by decide)).1

/-! ## Filter predicate builder
(`InfluxDBWrapper._write_influx_field`, lines 23-40):

    if not isinstance(arg, list):
        r_arg = f'"{arg}"'
    else:
        r_arg = f'"{arg[0]}"'
        for a in arg[1:]:
            r_arg = f'{r_arg} or r.{arg_name} == "{a}"'
    return r_arg

The runtime "scalar or list" typing is modelled as a sum type; `arg[0]` on an
empty list raises an uncaught `IndexError`, modelled as `none`.
-/

inductive FieldArg where
  | scalar (s : String)
  | listArg (l : List String)
deriving DecidableEq

def quoted (s : String) : String := "\"" ++ s ++ "\""

def writeInfluxField (arg : FieldArg) (argName : String) : Option String :=
  match arg with
  | .scalar s => some (quoted s)
  | .listArg [] => none
  | .listArg (a0 :: rest) =>
      some (rest.foldl (fun acc a => acc ++ " or r." ++ argName ++ " == " ++ quoted a)
        (quoted a0))

/-- C9: the predicate builder applied to a one-element list produces exactly
the predicate it produces for the corresponding scalar, for every dimension
name. -/
theorem writeInfluxField_singleton (v argName : String) :
    writeInfluxField (.listArg [v]) argName = writeInfluxField (.scalar v) argName := rfl

/-! ## Scheduler arithmetic
(`deribit_loader.get_next_run_time`, lines 148-156, and the
`timeframe_minutes` dict, lines 28-35):

    next_run = (timeframe_minutes[timeframe] - current_time.tm_min % timeframe_minutes[timeframe]) * 60 \
                - current_time.tm_sec
    return next_run % (timeframe_minutes[timeframe] * 60)

Python's `%` on a positive modulus yields a value in `[0, modulus)`, which is
exactly Lean's `Int.emod` behaviour for a positive divisor.  A key missing
from the dict raises `KeyError`, modelled as `none`.
-/

def timeframe_minutes : List (String × ℤ) :=
  [("5m", 5), ("15m", 15), ("30m", 30), ("1h", 60), ("4h", 240), ("1d", 1440)]

def timeframeMinutesOf (tf : String) : Option ℤ :=
  (timeframe_minutes.find? (fun p => p.1 == tf)).map Prod.snd

def get_next_run_time (tf : String) (tm_min tm_sec : ℤ) : Option ℤ :=
  (timeframeMinutesOf tf).map (fun m => ((m - tm_min % m) * 60 - tm_sec) % (m * 60))

lemma timeframeMinutesOf_pos (tf : String) (m : ℤ) (h : timeframeMinutesOf tf = some m) :
    0 < m := by
  unfold timeframeMinutesOf at h
  rcases hfind : timeframe_minutes.find? (fun p => p.1 == tf) with _ | p
  · rw [hfind] at h; simp at h
  · rw [hfind] at h
    have hp : p.2 = m := by
      simpa using h
    have hmem : p ∈ timeframe_minutes := List.mem_of_find?_eq_some hfind
    rw [← hp]
    fin_cases hmem <;> norm_num

/-- C10: for every supported timeframe key and every clock reading, the
computed sleep time is defined, non-negative, and strictly below one full
timeframe period in seconds. -/
theorem get_next_run_time_bounds (tf : String) (m tm_min tm_sec : ℤ)
    (h : timeframeMinutesOf tf = some m) :
    ∃ r, get_next_run_time tf tm_min tm_sec = some r ∧ 0 ≤ r ∧ r < m * 60 := by
  have hm : 0 < m := timeframeMinutesOf_pos tf m h
  have hm60 : (0 : ℤ) < m * 60 := by positivity
  refine ⟨((m - tm_min % m) * 60 - tm_sec) % (m * 60), ?_, ?_, ?_⟩
  · unfold get_next_run_time
    rw [h]
    rfl
  · exact Int.emod_nonneg _ (ne_of_gt hm60)
  · exact Int.emod_lt_of_pos _ hm60

/-- Concrete instance of `get_next_run_time_bounds`: timeframe "5m" at minute
3, second 17 sleeps an amount within [0, 300). -/
theorem get_next_run_time_bounds_witness :
    ∃ r, get_next_run_time "5m" 3 17 = some r ∧ 0 ≤ r ∧ r < 5 * 60 :=
  get_next_run_time_bounds "5m" 5 3 17 (by decide)
